import Mathlib

/-
  Shallow embedding of the lyrics subsystem of the chord-scribe-play music
  player (LyricsViewer: parseLRCFile, handleLRCUpload, handleManualEdit,
  the active-line findIndex effect, the edit-buffer serializer; MusicApp:
  handleLyricsUpdate).

  Strings are modelled as lists of characters; JavaScript numbers as `nan`
  or an exact rational (double rounding is not modelled: all arithmetic in
  the source is short decimal arithmetic).
-/

namespace ChordScribe

-- Rational arithmetic is evaluated by `decide` on the concrete examples
-- below; the library marks these operations irreducible, which blocks that
-- evaluation, so they are made semireducible for this file.
attribute [local semireducible] Rat.add Rat.mul Rat.inv Rat.sub

/-- A JavaScript string, modelled as its list of characters. -/
abbrev Str := List Char

/-- A JavaScript number: NaN or a rational value. (Infinities never arise in
this code: no division by a variable occurs.) -/
inductive JsNum where
  | nan : JsNum
  | num (q : ℚ) : JsNum
deriving DecidableEq

namespace JsNum

/-- JavaScript `+` : NaN propagates. -/
def add : JsNum → JsNum → JsNum
  | num x, num y => num (x + y)
  | _, _ => nan

/-- JavaScript `*` : NaN propagates. -/
def mul : JsNum → JsNum → JsNum
  | num x, num y => num (x * y)
  | _, _ => nan

/-- JavaScript `>=` : any comparison with NaN is false. -/
def jge : JsNum → JsNum → Bool
  | num x, num y => decide (y ≤ x)
  | _, _ => false

/-- JavaScript `<` : any comparison with NaN is false. -/
def jlt : JsNum → JsNum → Bool
  | num x, num y => decide (x < y)
  | _, _ => false

end JsNum

/-- Decimal digit test, as in the JavaScript regex class `\d` (exactly the
ASCII digits 0-9). -/
def isDigitC (c : Char) : Bool := 48 ≤ c.toNat && c.toNat ≤ 57

/-- Numeric value of a decimal digit character. -/
def digitVal (c : Char) : ℕ := c.toNat - 48

/-- Whitespace as trimmed/skipped by JavaScript `trim`, `parseInt` and
`parseFloat`. (JavaScript also strips rarer Unicode space characters;
none occur in this code's inputs of interest.) -/
def isWS (c : Char) : Bool := c = ' ' || c = '\t' || c = '\n' || c = '\r'

/-- JavaScript `String.prototype.trim`: drop whitespace from both ends. -/
def trim (s : Str) : Str := ((s.dropWhile isWS).reverse.dropWhile isWS).reverse

/-- Helper for `splitOnChar`: returns the segment up to the first separator
and the list of remaining segments. -/
def splitAux (c : Char) : Str → Str × List Str
  | [] => ([], [])
  | x :: xs =>
    let r := splitAux c xs
    if x = c then ([], r.1 :: r.2) else (x :: r.1, r.2)

/-- JavaScript `String.prototype.split` with a one-character separator:
always returns at least one (possibly empty) segment. -/
def splitOnChar (c : Char) (s : Str) : List Str :=
  (splitAux c s).1 :: (splitAux c s).2

/-- JavaScript `Array.prototype.join` with a one-character separator. -/
def intercalateChar (c : Char) : List Str → Str
  | [] => []
  | [x] => x
  | x :: y :: xs => x ++ c :: intercalateChar c (y :: xs)

/-- Optional leading sign of a JavaScript numeric literal: returns
(isNegative, rest). -/
def jsSign : Str → Bool × Str
  | '-' :: r => (true, r)
  | '+' :: r => (false, r)
  | s => (false, s)

/-- Numeric value of a digit string, most significant digit first. -/
def digitsVal (s : Str) : ℕ := s.foldl (fun a c => 10 * a + digitVal c) 0

/-- JavaScript `parseInt(s)` (radix 10): skip leading whitespace, optional
sign, longest digit prefix; NaN if no digit. (The `0x` hexadecimal prefix is
not modelled; all inputs parsed by this program are decimal.) -/
def jsParseInt (s : Str) : JsNum :=
  let s1 := s.dropWhile isWS
  let p := jsSign s1
  let ds := p.2.takeWhile isDigitC
  if ds.isEmpty then .nan
  else .num (if p.1 then -(digitsVal ds : ℚ) else (digitsVal ds : ℚ))

/-- JavaScript `parseFloat(s)`: skip leading whitespace, optional sign,
digits, optional point and fraction digits; NaN when no digit at all.
(Exponent suffixes and the literal `Infinity` are not modelled; neither is
produced by this program's serializer.) -/
def jsParseFloat (s : Str) : JsNum :=
  let s1 := s.dropWhile isWS
  let p := jsSign s1
  let ip := p.2.takeWhile isDigitC
  let r1 := p.2.dropWhile isDigitC
  match r1 with
  | '.' :: r2 =>
    let fp := r2.takeWhile isDigitC
    if ip.isEmpty && fp.isEmpty then .nan
    else
      let v : ℚ := (digitsVal ip : ℚ) + (digitsVal fp : ℚ) / 10 ^ fp.length
      .num (if p.1 then -v else v)
  | _ =>
    if ip.isEmpty then .nan
    else .num (if p.1 then -(digitsVal ip : ℚ) else (digitsVal ip : ℚ))

/-- A synchronized lyric line, from `AudioPlayer.tsx`. -/
structure LyricLine where
  time : JsNum
  text : Str
deriving DecidableEq

/-- Attempt to match the regex `\[(\d{2}):(\d{2})\.(\d{2})\](.*)` at the
start of the line; on success build the lyric entry exactly as the loop body
of `parseLRCFile` does: `time = minutes*60 + seconds + centiseconds/100`,
`text = match[4].trim()`. -/
def matchLRCAt : Str → Option LyricLine
  | '[' :: m1 :: m2 :: ':' :: s1 :: s2 :: '.' :: c1 :: c2 :: ']' :: rest =>
    if isDigitC m1 && isDigitC m2 && isDigitC s1 && isDigitC s2 &&
        isDigitC c1 && isDigitC c2 then
      some { time := .num ((10 * digitVal m1 + digitVal m2 : ℕ) * 60
                             + (10 * digitVal s1 + digitVal s2 : ℕ)
                             + (10 * digitVal c1 + digitVal c2 : ℕ) / 100),
             text := trim rest }
    else none
  | _ => none

/-- JavaScript `line.match(/\[(\d{2}):(\d{2})\.(\d{2})\](.*)/)`: the regex is
not anchored, so the engine tries each start position left to right and
returns the leftmost match. -/
def findLRC : Str → Option LyricLine
  | [] => none
  | c :: rest =>
    match matchLRCAt (c :: rest) with
    | some l => some l
    | none => findLRC rest

/-- Sort key used by `lyricsArray.sort((a, b) => a.time - b.time)`. Every
entry built by `parseLRCFile` has a numeric time, so the `nan` branch is
never exercised by that caller. -/
def timeKey (l : LyricLine) : ℚ :=
  match l.time with
  | .num q => q
  | .nan => 0

/-- The sort relation of the comparator `(a, b) => a.time - b.time`. -/
def timeLE (a b : LyricLine) : Prop := timeKey a ≤ timeKey b

instance : DecidableRel timeLE := fun a b => inferInstanceAs (Decidable (timeKey a ≤ timeKey b))

/-- JavaScript `Array.prototype.sort` with the time comparator. The ECMA
specification requires the sort to be stable, so it is modelled by a stable
sort (insertion sort) on the comparator's order. -/
def sortByTime (ls : List LyricLine) : List LyricLine := List.insertionSort timeLE ls

/-- Body of `parseLRCFile` after splitting the content into lines: keep the
entry of every line with a regex match, then sort by time. -/
def parseLRCLines (lines : List Str) : List LyricLine :=
  sortByTime (lines.filterMap findLRC)

/-- `parseLRCFile` from LyricsViewer, lines 50-68. -/
def parseLRCFile (content : Str) : List LyricLine :=
  parseLRCLines (splitOnChar '\n' content)

/-- Entry built by the `forEach` body of `handleManualEdit` for the retained
line at zero-based position `index`. -/
def manualEntry (index : ℕ) (line : Str) : LyricLine :=
  match splitOnChar '|' line with
  | [rawTime, rawText] =>
    let timeStr := trim rawTime
    let text := trim rawText
    let time :=
      if ':' ∈ timeStr then
        match splitOnChar ':' timeStr with
        | minutes :: seconds :: _ => (jsParseInt minutes).mul (.num 60) |>.add (jsParseFloat seconds)
        | _ => .nan   -- unreachable: a split of a string containing the separator has two or more parts
      else jsParseFloat timeStr
    { time := time, text := text }
  | _ => { time := .num ((index : ℚ) * 3), text := trim line }

/-- The `forEach` of `handleManualEdit`, carrying the running index. -/
def manualLoop (index : ℕ) : List Str → List LyricLine
  | [] => []
  | l :: ls => manualEntry index l :: manualLoop (index + 1) ls

/-- `lyricsText.split('\n').filter(line => line.trim())`: the retained
(non-whitespace-only) lines, in order. -/
def retainedLines (buffer : Str) : List Str :=
  (splitOnChar '\n' buffer).filter (fun l => !(trim l).isEmpty)

/-- The parsing part of `handleManualEdit` from LyricsViewer, lines 89-117
(the save branch): split, filter blank lines, build one entry per line. -/
def handleManualEdit (buffer : Str) : List LyricLine :=
  manualLoop 0 (retainedLines buffer)

/-- The line-list form of `handleManualEdit`: what the save branch does with
the raw lines of the edit buffer after splitting on newlines. -/
def handleManualEditLines (rawLines : List Str) : List LyricLine :=
  manualLoop 0 (rawLines.filter (fun l => !(trim l).isEmpty))

/-- The `findIndex` of the active-line effect (LyricsViewer lines 32-35):
first index whose entry satisfies
`currentTime >= line.time && (!nextLine || currentTime < nextLine.time)`. -/
def findActiveAux (t : JsNum) : List LyricLine → Option ℕ
  | [] => none
  | l :: rest =>
    let nextOk := match rest with
      | [] => true
      | nl :: _ => JsNum.jlt t nl.time
    if JsNum.jge t l.time && nextOk then some 0
    else (findActiveAux t rest).map (· + 1)

/-- The active-line resolver (LyricsViewer lines 29-38): when the lyric
sequence is absent no line is rendered, hence none is highlighted; otherwise
the `findIndex` result (`-1`, i.e. no match, is `none`). -/
def resolveActive (lyrics : Option (List LyricLine)) (t : JsNum) : Option ℕ :=
  match lyrics with
  | none => none
  | some ls => findActiveAux t ls

/-- Outcome of an upload: the toast shown to the user. -/
inductive Toast where
  | success : Toast
  | toastError : Toast
deriving DecidableEq

/-- The char list of the extension ".lrc". -/
def lrcSuffix : Str := ['.', 'l', 'r', 'c']

/-- `handleLRCUpload` from LyricsViewer, lines 70-84: the first component is
the argument passed to `onLyricsUpdate` (none when the hook is not invoked),
the second the toast. `file = none` models an event with no selected file. -/
def handleLRCUpload (file : Option Str) (content : Str) :
    Option (List LyricLine) × Toast :=
  match file with
  | some name =>
    if lrcSuffix.isSuffixOf name then (some (parseLRCFile content), .success)
    else (none, .toastError)
  | none => (none, .toastError)

/-- A song record, from `AudioPlayer.tsx`. -/
structure Song where
  id : Str
  title : Str
  artist : Str
  src : Str
  lyrics : Option (List LyricLine)
deriving DecidableEq

/-- The indexed map of `handleLyricsUpdate`, carrying the running index. -/
def updateSongsFrom (target : ℕ) (newLyrics : List LyricLine) : ℕ → List Song → List Song
  | _, [] => []
  | idx, s :: ss =>
    (if idx = target then { s with lyrics := some newLyrics } else s)
      :: updateSongsFrom target newLyrics (idx + 1) ss

/-- `handleLyricsUpdate` from MusicApp, lines 79-85:
`songs.map((song, index) => index === currentSongIndex ? {...song, lyrics} : song)`. -/
def handleLyricsUpdate (songs : List Song) (currentSongIndex : ℕ)
    (newLyrics : List LyricLine) : List Song :=
  updateSongsFrom currentSongIndex newLyrics 0 songs

/-- Truncation toward zero, as in the JavaScript `%` operator. -/
def qTrunc (q : ℚ) : ℤ := if 0 ≤ q then ⌊q⌋ else -⌊-q⌋

/-- JavaScript `x % 60`: `x - 60 * trunc(x / 60)`, NaN propagating. -/
def jsMod60 : JsNum → JsNum
  | .nan => .nan
  | .num q => .num (q - 60 * qTrunc (q / 60))

/-- JavaScript `x / 60`, NaN propagating. -/
def jsDiv60 : JsNum → JsNum
  | .nan => .nan
  | .num q => .num (q / 60)

/-- Decimal digit character for a value below ten. -/
def digitChar : ℕ → Char
  | 0 => '0' | 1 => '1' | 2 => '2' | 3 => '3' | 4 => '4'
  | 5 => '5' | 6 => '6' | 7 => '7' | 8 => '8' | _ => '9'

/-- Decimal digits of a natural number, least significant first. -/
def natDigitsRev (n : ℕ) : Str :=
  if h : n = 0 then [] else digitChar (n % 10) :: natDigitsRev (n / 10)
termination_by n
decreasing_by exact Nat.div_lt_self (Nat.pos_of_ne_zero h) (by norm_num)

/-- Decimal rendering of a natural number. -/
def natToChars (n : ℕ) : Str := if n = 0 then ['0'] else (natDigitsRev n).reverse

/-- Decimal rendering of an integer (JavaScript string conversion of an
integral number). -/
def intToChars (z : ℤ) : Str :=
  if z < 0 then '-' :: natToChars (-z).toNat else natToChars z.toNat

/-- JavaScript `Math.floor(x)` followed by template-literal string
conversion of the resulting integer. (Exponent notation for magnitudes of
1e21 and above is not modelled.) -/
def jsIntStr : JsNum → Str
  | .nan => ['N', 'a', 'N']
  | .num q => intToChars ⌊q⌋

/-- Magnitude part of `toFixed(2)`: per ECMA, the integer `n` nearest to
`q * 100`, ties toward the larger `n`, rendered with two decimals. -/
def toFixed2Mag (q : ℚ) : Str :=
  let n : ℕ := (⌊q * 100 + 1 / 2⌋).toNat
  natToChars (n / 100) ++ '.' :: digitChar (n % 100 / 10) :: [digitChar (n % 10)]

/-- JavaScript `x.toFixed(2)`: sign, then the magnitude with two decimals. -/
def toFixed2 : JsNum → Str
  | .nan => ['N', 'a', 'N']
  | .num q => if q < 0 then '-' :: toFixed2Mag (-q) else toFixed2Mag q

/-- JavaScript `s.padStart(n, c)`. -/
def padStart (n : ℕ) (c : Char) (s : Str) : Str :=
  List.replicate (n - s.length) c ++ s

/-- The edit-buffer serializer for one entry (LyricsViewer line 222):
`Math.floor(l.time / 60)` + ":" + `(l.time % 60).toFixed(2).padStart(5, '0')`
+ "|" + `l.text`. -/
def serializeLine (l : LyricLine) : Str :=
  jsIntStr (jsDiv60 l.time) ++ ':' :: padStart 5 '0' (toFixed2 (jsMod60 l.time)) ++ '|' :: l.text

/-- The edit-buffer serializer (LyricsViewer line 222): one line per entry,
joined by newlines. -/
def serializeLyrics (ls : List LyricLine) : Str :=
  intercalateChar '\n' (ls.map serializeLine)

/-- Rounding of a time value to hundredths of a second, the tolerance in the
round-trip property (ties toward the larger value, as `toFixed`). -/
def roundToHundredths (q : ℚ) : ℚ := (⌊q * 100 + 1 / 2⌋ : ℚ) / 100

/-- The window predicate of the active-line `findIndex` at position `i`:
`currentTime >= lyrics[i].time && (!lyrics[i+1] || currentTime < lyrics[i+1].time)`. -/
@[reducible] def activeAt (ls : List LyricLine) (t : JsNum) (i : ℕ) : Prop :=
  (∃ l, ls[i]? = some l ∧ JsNum.jge t l.time = true) ∧
  (ls[i + 1]? = none ∨ ∃ nl, ls[i + 1]? = some nl ∧ JsNum.jlt t nl.time = true)

/-- The second half of the `findIndex` predicate:
`!nextLine || currentTime < nextLine.time`, where `nextLine` is the head of
the remaining entries. -/
def nextLineOk (t : JsNum) : List LyricLine → Bool
  | [] => true
  | nl :: _ => JsNum.jlt t nl.time

/-- Two-digit decimal rendering of a value below 100. -/
def twoDig (n : ℕ) : Str := [digitChar (n / 10), digitChar (n % 10)]

/-- The char list of a tag `[mm:ss.cc]` with two-digit fields. -/
def markerChars (m s c : ℕ) : Str :=
  '[' :: twoDig m ++ ':' :: twoDig s ++ '.' :: twoDig c ++ [']']

/-- Conditions under which an entry survives the serialize-reparse round
trip: a non-negative numeric time, and a text that contains no newline and
no pipe and carries no surrounding whitespace. -/
def roundTripSafe (l : LyricLine) : Prop :=
  (∃ q : ℚ, l.time = .num q ∧ 0 ≤ q) ∧
  '\n' ∉ l.text ∧ '|' ∉ l.text ∧ trim l.text = l.text

/-- The three-entry sequence with times 0, 3, 6 used by the resolver
examples of the specification. -/
def exLyrics036 : List LyricLine :=
  [{ time := .num 0, text := ['a'] }, { time := .num 3, text := ['b'] },
   { time := .num 6, text := ['c'] }]

/-- A lyric sequence that is not sorted by time (times 5 then 1), as the
freeform parser can produce. -/
def exUnsorted : List LyricLine :=
  [{ time := .num 5, text := ['x'] }, { time := .num 1, text := ['y'] }]

/-- The line " [00:01.02]hi": its timestamp marker is preceded by a space,
so the marker is not leading. -/
def exIndentedLine : Str :=
  [' ', '[', '0', '0', ':', '0', '1', '.', '0', '2', ']', 'h', 'i']

/-- The buffer "-5|x": an explicit negative time in the freeform format. -/
def exNegBuffer : Str := ['-', '5', '|', 'x']

/-- The buffer "abc|x": a non-numeric time expression in the freeform
format. -/
def exNanBuffer : Str := ['a', 'b', 'c', '|', 'x']

/-- The file name "a.lrc". -/
def exLrcName : Str := ['a', '.', 'l', 'r', 'c']

/-- The content "garbage", which contains no timestamp marker. -/
def exGarbage : Str := ['g', 'a', 'r', 'b', 'a', 'g', 'e']

/-- A lyric entry whose text contains a pipe character. -/
def exPipeEntry : LyricLine := { time := .num 0, text := ['a', '|', 'b'] }

/-- The edit buffer "5|b\n1|a": explicit times out of ascending order. -/
def exOrderBuffer : Str := ['5', '|', 'b', '\n', '1', '|', 'a']

/-- The content "[00:03.00]b\n[00:01.00]a". -/
def exContentA : Str :=
  ['[', '0', '0', ':', '0', '3', '.', '0', '0', ']', 'b', '\n',
   '[', '0', '0', ':', '0', '1', '.', '0', '0', ']', 'a']

/-- The content "[00:01.00]a\n[00:03.00]b": the same lines in the other
order. -/
def exContentB : Str :=
  ['[', '0', '0', ':', '0', '1', '.', '0', '0', ']', 'a', '\n',
   '[', '0', '0', ':', '0', '3', '.', '0', '0', ']', 'b']

/-- The file name "a.txt", which does not end in ".lrc". -/
def exTxtName : Str := ['a', '.', 't', 'x', 't']

/-- The buffer "hey": a single line with no pipe. -/
def exBareBuffer : Str := ['h', 'e', 'y']

/-- A two-song list used to witness the lyrics-update frame property. -/
def exSongs : List Song :=
  [{ id := ['1'], title := ['s', '1'], artist := ['a', '1'], src := ['u', '1'],
     lyrics := none },
   { id := ['2'], title := ['s', '2'], artist := ['a', '2'], src := ['u', '2'],
     lyrics := some [{ time := .num 0, text := ['w'] }] }]

/-! Helper lemmas on characters and the string primitives. -/

theorem isWS_eq_false_of_isDigitC {c : Char} (h : isDigitC c = true) : isWS c = false := by
  simp only [isDigitC, Bool.and_eq_true, decide_eq_true_eq] at h
  simp only [isWS, Bool.or_eq_false_iff, decide_eq_false_iff_not]
  refine ⟨⟨⟨?_, ?_⟩, ?_⟩, ?_⟩ <;> rintro rfl <;> exact absurd h (by decide)

theorem ne_of_isDigitC {c d : Char} (h : isDigitC c = true) (hd : isDigitC d = false) :
    c ≠ d := by
  rintro rfl; rw [h] at hd; simp at hd

theorem dropWhile_eq_self_of_head {p : Char → Bool} {c : Char} {s : Str}
    (h : p c = false) : List.dropWhile p (c :: s) = c :: s := by
  simp [List.dropWhile_cons, h]

theorem dropWhile_eq_self_of_forall {p : Char → Bool} {s : Str}
    (h : ∀ c ∈ s, p c = false) : List.dropWhile p s = s := by
  cases s with
  | nil => rfl
  | cons c cs => exact dropWhile_eq_self_of_head (h c (by simp))

theorem takeWhile_eq_self_of_forall {p : Char → Bool} {s : Str}
    (h : ∀ c ∈ s, p c = true) : List.takeWhile p s = s := by
  induction s with
  | nil => rfl
  | cons c cs ih =>
    rw [List.takeWhile_cons, if_pos (h c (by simp))]
    rw [ih (fun x hx => h x (by simp [hx]))]

theorem takeWhile_all_append {p : Char → Bool} {xs : Str} (y : Char) (ys : Str)
    (h : ∀ x ∈ xs, p x = true) (hy : p y = false) :
    (xs ++ y :: ys).takeWhile p = xs ∧ (xs ++ y :: ys).dropWhile p = y :: ys := by
  induction xs with
  | nil => constructor <;> simp [List.takeWhile_cons, List.dropWhile_cons, hy]
  | cons x xs ih =>
    have hx : p x = true := h x (by simp)
    obtain ⟨ih1, ih2⟩ := ih (fun a ha => h a (by simp [ha]))
    constructor
    · simpa [List.takeWhile_cons, hx] using ih1
    · simpa [List.dropWhile_cons, hx] using ih2

theorem mem_dropWhile_of_not {p : Char → Bool} {s : Str} {c : Char}
    (hc : c ∈ s) (h : p c = false) : c ∈ List.dropWhile p s := by
  induction s with
  | nil => simp at hc
  | cons x xs ih =>
    rw [List.dropWhile_cons]
    by_cases hx : p x = true
    · rw [if_pos hx]
      rcases List.mem_cons.mp hc with rfl | hmem
      · rw [hx] at h; exact absurd h (by simp)
      · exact ih hmem
    · rw [if_neg hx]; exact hc

theorem trim_eq_self {s : Str} (h : ∀ c ∈ s, isWS c = false) : trim s = s := by
  unfold trim
  rw [dropWhile_eq_self_of_forall h,
      dropWhile_eq_self_of_forall (fun c hc => h c (List.mem_reverse.mp hc)),
      List.reverse_reverse]

theorem trim_ne_nil {s : Str} {c : Char} (hc : c ∈ s) (h : isWS c = false) :
    trim s ≠ [] := by
  intro hnil
  unfold trim at hnil
  rw [List.reverse_eq_nil_iff, List.dropWhile_eq_nil_iff] at hnil
  have h1 : c ∈ List.dropWhile isWS s := mem_dropWhile_of_not hc h
  have := hnil c (List.mem_reverse.mpr h1)
  rw [h] at this; exact absurd this (by simp)

theorem splitAux_of_not_mem {c : Char} : ∀ {s : Str}, c ∉ s → splitAux c s = (s, []) := by
  intro s
  induction s with
  | nil => intro _; rfl
  | cons x xs ih =>
    intro h
    have hx : x ≠ c := fun he => h (by simp [he])
    have hxs : c ∉ xs := fun hm => h (by simp [hm])
    simp [splitAux, hx, ih hxs]

theorem splitOnChar_of_not_mem {c : Char} {s : Str} (h : c ∉ s) :
    splitOnChar c s = [s] := by
  simp [splitOnChar, splitAux_of_not_mem h]

theorem splitAux_append_cons (c : Char) {xs : Str} (ys : Str) (h : c ∉ xs) :
    splitAux c (xs ++ c :: ys) = (xs, (splitAux c ys).1 :: (splitAux c ys).2) := by
  induction xs with
  | nil => simp [splitAux]
  | cons x xs ih =>
    have hx : x ≠ c := fun he => h (by simp [he])
    have hxs : c ∉ xs := fun hm => h (by simp [hm])
    simp [splitAux, hx, ih hxs]

theorem splitOnChar_append_cons (c : Char) {xs : Str} (ys : Str) (h : c ∉ xs) :
    splitOnChar c (xs ++ c :: ys) = xs :: splitOnChar c ys := by
  simp [splitOnChar, splitAux_append_cons c ys h]

theorem splitOnChar_intercalate (c : Char) :
    ∀ {xss : List Str}, (∀ x ∈ xss, c ∉ x) → xss ≠ [] →
      splitOnChar c (intercalateChar c xss) = xss := by
  intro xss
  induction xss with
  | nil => intro _ h; exact absurd rfl h
  | cons x xs ih =>
    intro h _
    cases xs with
    | nil => exact splitOnChar_of_not_mem (h x (by simp))
    | cons y ys =>
      show splitOnChar c (x ++ c :: intercalateChar c (y :: ys)) = _
      rw [splitOnChar_append_cons c _ (h x (by simp))]
      rw [ih (fun a ha => h a (by simp [ha])) (by simp)]

/-! Decimal rendering and its relation to the number parsers. -/

theorem isDigitC_digitChar {d : ℕ} (h : d < 10) : isDigitC (digitChar d) = true := by
  interval_cases d <;> decide

theorem digitVal_digitChar {d : ℕ} (h : d < 10) : digitVal (digitChar d) = d := by
  interval_cases d <;> decide

theorem natDigitsRev_digits : ∀ n, ∀ c ∈ natDigitsRev n, isDigitC c = true := by
  intro n
  induction n using Nat.strong_induction_on with
  | _ n ih =>
    rw [natDigitsRev]
    split
    · simp
    · rename_i hn
      intro c hc
      rcases List.mem_cons.mp hc with rfl | hmem
      · exact isDigitC_digitChar (Nat.mod_lt _ (by norm_num))
      · exact ih (n / 10) (Nat.div_lt_self (Nat.pos_of_ne_zero hn) (by norm_num)) c hmem

theorem natToChars_digits (n : ℕ) : ∀ c ∈ natToChars n, isDigitC c = true := by
  unfold natToChars
  split
  · decide
  · intro c hc
    exact natDigitsRev_digits n c (List.mem_reverse.mp hc)

theorem natToChars_ne_nil (n : ℕ) : natToChars n ≠ [] := by
  unfold natToChars
  split
  · simp
  · rename_i hn
    rw [natDigitsRev, dif_neg hn]
    simp

theorem digitsVal_foldl (step : ℕ → Char → ℕ) (hstep : step = fun a c => 10 * a + digitVal c) :
    ∀ (ys : Str) (a : ℕ), ys.foldl step a = a * 10 ^ ys.length + ys.foldl step 0 := by
  intro ys
  induction ys with
  | nil => intro a; simp
  | cons c ys ih =>
    intro a
    simp only [List.foldl_cons, List.length_cons]
    rw [ih (step a c), ih (step 0 c), hstep]
    ring

theorem digitsVal_append (xs ys : Str) :
    digitsVal (xs ++ ys) = digitsVal xs * 10 ^ ys.length + digitsVal ys := by
  unfold digitsVal
  rw [List.foldl_append, digitsVal_foldl _ rfl ys]

theorem digitsVal_replicate_zero (k : ℕ) : digitsVal (List.replicate k '0') = 0 := by
  induction k with
  | zero => rfl
  | succ k ih =>
    have : digitsVal (List.replicate (k + 1) '0')
        = digitsVal (List.replicate k '0' ++ ['0']) := by
      rw [← List.replicate_succ' k '0']
    rw [this, digitsVal_append, ih]
    rfl

theorem digitsVal_natDigitsRev_reverse : ∀ n, digitsVal (natDigitsRev n).reverse = n := by
  intro n
  induction n using Nat.strong_induction_on with
  | _ n ih =>
    rw [natDigitsRev]
    split
    · rename_i hn; simp [hn, digitsVal]
    · rename_i hn
      rw [List.reverse_cons, digitsVal_append]
      rw [ih (n / 10) (Nat.div_lt_self (Nat.pos_of_ne_zero hn) (by norm_num))]
      show n / 10 * 10 ^ 1 + digitsVal [digitChar (n % 10)] = n
      have hd : digitsVal [digitChar (n % 10)] = n % 10 := by
        show 10 * 0 + digitVal (digitChar (n % 10)) = n % 10
        rw [digitVal_digitChar (Nat.mod_lt _ (by norm_num))]
        omega
      rw [hd]
      omega

theorem digitsVal_natToChars (n : ℕ) : digitsVal (natToChars n) = n := by
  unfold natToChars
  split
  · rename_i h; subst h; rfl
  · exact digitsVal_natDigitsRev_reverse n

theorem jsSign_of_head {c : Char} (rest : Str) (h1 : c ≠ '-') (h2 : c ≠ '+') :
    jsSign (c :: rest) = (false, c :: rest) := by
  rw [jsSign.eq_def]
  split
  · rename_i heq; rw [List.cons.injEq] at heq; exact absurd heq.1 h1
  · rename_i heq; rw [List.cons.injEq] at heq; exact absurd heq.1 h2
  · rfl

theorem jsSign_of_digits {s : Str} (hne : s ≠ []) (h : ∀ c ∈ s, isDigitC c = true) :
    jsSign s = (false, s) := by
  cases s with
  | nil => exact absurd rfl hne
  | cons c cs =>
    have hc := h c (by simp)
    exact jsSign_of_head cs (ne_of_isDigitC hc (by decide)) (ne_of_isDigitC hc (by decide))

theorem dropWhile_isWS_of_digits {s : Str} (h : ∀ c ∈ s, isDigitC c = true) :
    List.dropWhile isWS s = s :=
  dropWhile_eq_self_of_forall (fun c hc => isWS_eq_false_of_isDigitC (h c hc))

theorem jsParseInt_of_digits {s : Str} (hne : s ≠ []) (h : ∀ c ∈ s, isDigitC c = true) :
    jsParseInt s = .num (digitsVal s) := by
  have h1 := dropWhile_isWS_of_digits h
  have h2 := jsSign_of_digits hne h
  have h3 := takeWhile_eq_self_of_forall h
  simp only [jsParseInt, h1, h2, h3]
  rw [if_neg (by simpa [List.isEmpty_iff] using hne)]
  simp

theorem jsParseInt_natToChars (n : ℕ) : jsParseInt (natToChars n) = .num n := by
  rw [jsParseInt_of_digits (natToChars_ne_nil n) (natToChars_digits n), digitsVal_natToChars]

theorem jsParseFloat_digits {ip fp : Str} (hne : ip ≠ [])
    (hip : ∀ c ∈ ip, isDigitC c = true) (hfp : ∀ c ∈ fp, isDigitC c = true) :
    jsParseFloat (ip ++ '.' :: fp)
      = .num ((digitsVal ip : ℚ) + (digitsVal fp : ℚ) / 10 ^ fp.length) := by
  have hdrop : List.dropWhile isWS (ip ++ '.' :: fp) = ip ++ '.' :: fp := by
    cases ip with
    | nil => exact absurd rfl hne
    | cons c cs =>
      exact dropWhile_eq_self_of_head (isWS_eq_false_of_isDigitC (hip c (by simp)))
  have hsign : jsSign (ip ++ '.' :: fp) = (false, ip ++ '.' :: fp) := by
    cases ip with
    | nil => exact absurd rfl hne
    | cons c cs =>
      have hc := hip c (by simp)
      exact jsSign_of_head _ (ne_of_isDigitC hc (by decide)) (ne_of_isDigitC hc (by decide))
  obtain ⟨htake, hdrop2⟩ := takeWhile_all_append '.' fp hip (by decide)
  have h3 := takeWhile_eq_self_of_forall hfp
  simp only [jsParseFloat, hdrop, hsign, htake, hdrop2, h3]
  rw [if_neg (by simp [List.isEmpty_iff, hne])]
  simp

/-! Structural lemmas about the freeform loop, the song update and the sort. -/

theorem manualLoop_length (k : ℕ) (ls : List Str) :
    (manualLoop k ls).length = ls.length := by
  induction ls generalizing k with
  | nil => rfl
  | cons l ls ih => simp [manualLoop, ih]

theorem manualLoop_getElem? (k i : ℕ) (ls : List Str) :
    (manualLoop k ls)[i]? = (ls[i]?).map (manualEntry (k + i)) := by
  induction ls generalizing k i with
  | nil => simp [manualLoop]
  | cons l ls ih =>
    cases i with
    | zero => simp [manualLoop]
    | succ i =>
      simp only [manualLoop, List.getElem?_cons_succ]
      have he : k + 1 + i = k + (i + 1) := by omega
      rw [ih (k + 1) i, he]

theorem handleManualEdit_length (buffer : Str) :
    (handleManualEdit buffer).length = (retainedLines buffer).length :=
  manualLoop_length 0 _

theorem handleManualEdit_getElem? (buffer : Str) (i : ℕ) :
    (handleManualEdit buffer)[i]? = ((retainedLines buffer)[i]?).map (manualEntry i) := by
  rw [handleManualEdit, manualLoop_getElem? 0 i]
  simp

theorem updateSongsFrom_length (target : ℕ) (L : List LyricLine) (k : ℕ) (ss : List Song) :
    (updateSongsFrom target L k ss).length = ss.length := by
  induction ss generalizing k with
  | nil => rfl
  | cons s ss ih => simp [updateSongsFrom, ih]

theorem updateSongsFrom_getElem? (target : ℕ) (L : List LyricLine) (k i : ℕ) (ss : List Song) :
    (updateSongsFrom target L k ss)[i]?
      = (ss[i]?).map (fun s => if k + i = target then { s with lyrics := some L } else s) := by
  induction ss generalizing k i with
  | nil => simp [updateSongsFrom]
  | cons s ss ih =>
    cases i with
    | zero => simp [updateSongsFrom]
    | succ i =>
      simp only [updateSongsFrom, List.getElem?_cons_succ]
      rw [ih (k + 1) i]
      congr 2
      funext s
      congr 1
      simp only [eq_iff_iff]
      omega

instance : IsTotal LyricLine timeLE := ⟨fun a b => le_total (timeKey a) (timeKey b)⟩

instance : IsTrans LyricLine timeLE := ⟨fun _ _ _ h1 h2 => le_trans h1 h2⟩

theorem sortByTime_perm (ls : List LyricLine) : (sortByTime ls).Perm ls :=
  List.perm_insertionSort timeLE ls

theorem sortByTime_sorted (ls : List LyricLine) : List.Sorted timeLE (sortByTime ls) :=
  List.sorted_insertionSort timeLE ls

theorem mem_parseLRCLines {lines : List Str} {l : LyricLine} :
    l ∈ parseLRCLines lines ↔ ∃ line ∈ lines, findLRC line = some l := by
  rw [parseLRCLines, (sortByTime_perm _).mem_iff, List.mem_filterMap]

/-! The entries built by the tagged parser. -/

theorem matchLRCAt_time_nonneg {line : Str} {l : LyricLine}
    (h : matchLRCAt line = some l) : ∃ q : ℚ, l.time = .num q ∧ 0 ≤ q := by
  rw [matchLRCAt.eq_def] at h
  split at h
  · split at h
    · rw [Option.some.injEq] at h
      subst h
      refine ⟨_, rfl, ?_⟩
      positivity
    · exact absurd h (by simp)
  · exact absurd h (by simp)

theorem findLRC_time_nonneg {line : Str} {l : LyricLine}
    (h : findLRC line = some l) : ∃ q : ℚ, l.time = .num q ∧ 0 ≤ q := by
  induction line with
  | nil => exact absurd h (by simp [findLRC])
  | cons c rest ih =>
    rw [findLRC] at h
    split at h
    · rename_i heq
      rw [Option.some.injEq] at h
      subst h
      exact matchLRCAt_time_nonneg heq
    · exact ih h

/-! Tagged-format lines with a marker. -/

theorem isDigitC_digitChar_any (d : ℕ) : isDigitC (digitChar d) = true := by
  unfold digitChar
  split <;> decide

theorem twoDigVal {n : ℕ} (h : n < 100) :
    10 * digitVal (digitChar (n / 10)) + digitVal (digitChar (n % 10)) = n := by
  rw [digitVal_digitChar (by omega), digitVal_digitChar (by omega)]
  omega

theorem markerChars_cons (m s c : ℕ) (text : Str) :
    markerChars m s c ++ text
      = '[' :: digitChar (m / 10) :: digitChar (m % 10) :: ':'
          :: digitChar (s / 10) :: digitChar (s % 10) :: '.'
          :: digitChar (c / 10) :: digitChar (c % 10) :: ']' :: text := by
  simp [markerChars, twoDig]

theorem matchLRCAt_marker {m s c : ℕ} (hm : m < 100) (hs : s < 100) (hc : c < 100)
    (text : Str) :
    matchLRCAt (markerChars m s c ++ text)
      = some { time := .num ((m : ℚ) * 60 + (s : ℚ) + (c : ℚ) / 100),
               text := trim text } := by
  rw [markerChars_cons]
  rw [matchLRCAt]
  rw [if_pos (by simp [isDigitC_digitChar_any])]
  rw [twoDigVal hm, twoDigVal hs, twoDigVal hc]

theorem findLRC_marker {m s c : ℕ} (hm : m < 100) (hs : s < 100) (hc : c < 100)
    (text : Str) :
    findLRC (markerChars m s c ++ text)
      = some { time := .num ((m : ℚ) * 60 + (s : ℚ) + (c : ℚ) / 100),
               text := trim text } := by
  have h := matchLRCAt_marker hm hs hc text
  rw [markerChars_cons] at h ⊢
  rw [findLRC, h]

theorem mem_markerChars {m s c : ℕ} {x : Char} (hx : x ∈ markerChars m s c) :
    isDigitC x = true ∨ x = '[' ∨ x = ':' ∨ x = '.' ∨ x = ']' := by
  have he : markerChars m s c
      = '[' :: digitChar (m / 10) :: digitChar (m % 10) :: ':'
          :: digitChar (s / 10) :: digitChar (s % 10) :: '.'
          :: digitChar (c / 10) :: digitChar (c % 10) :: [']'] := by
    simpa using markerChars_cons m s c []
  rw [he] at hx
  simp only [List.mem_cons, List.not_mem_nil, or_false] at hx
  rcases hx with rfl | rfl | rfl | rfl | rfl | rfl | rfl | rfl | rfl | rfl <;>
    simp [isDigitC_digitChar_any]

theorem newline_not_mem_markerChars (m s c : ℕ) : '\n' ∉ markerChars m s c := by
  intro hmem
  rcases mem_markerChars hmem with h | h | h | h | h <;> exact absurd h (by decide)

theorem sortByTime_singleton (l : LyricLine) : sortByTime [l] = [l] := rfl

theorem parseLRCLines_singleton_marker {m s c : ℕ}
    (hm : m < 100) (hs : s < 100) (hc : c < 100) (text : Str) :
    parseLRCLines [markerChars m s c ++ text]
      = [{ time := .num ((m : ℚ) * 60 + (s : ℚ) + (c : ℚ) / 100),
           text := trim text }] := by
  rw [parseLRCLines, List.filterMap_cons]
  rw [findLRC_marker hm hs hc text]
  rw [List.filterMap_nil]
  exact sortByTime_singleton _

theorem parseLRCLines_all_none {lines : List Str}
    (h : ∀ line ∈ lines, findLRC line = none) : parseLRCLines lines = [] := by
  rw [parseLRCLines, List.filterMap_eq_nil_iff.mpr h]
  rfl

theorem parseLRCLines_drop_unmatched (pre post : List Str) {bad : Str}
    (h : findLRC bad = none) :
    parseLRCLines (pre ++ bad :: post) = parseLRCLines (pre ++ post) := by
  unfold parseLRCLines
  rw [List.filterMap_append, List.filterMap_append, List.filterMap_cons, h]

theorem handleManualEditLines_drop_blank (pre post : List Str) {bad : Str}
    (h : trim bad = []) :
    handleManualEditLines (pre ++ bad :: post) = handleManualEditLines (pre ++ post) := by
  unfold handleManualEditLines
  rw [List.filter_append, List.filter_append, List.filter_cons]
  rw [if_neg (by simp [h])]

/-! The serializer of the edit buffer and the reparse of its output. -/

theorem qTrunc_of_nonneg {q : ℚ} (h : 0 ≤ q) : qTrunc q = ⌊q⌋ := if_pos h

theorem floor_div60_nonneg {q : ℚ} (h : 0 ≤ q) : 0 ≤ ⌊q / 60⌋ :=
  Int.floor_nonneg.mpr (by positivity)

theorem rem60_nonneg {q : ℚ} (_h : 0 ≤ q) : 0 ≤ q - 60 * (⌊q / 60⌋ : ℚ) := by
  have h1 : (⌊q / 60⌋ : ℚ) ≤ q / 60 := Int.floor_le _
  have h2 : (60 : ℚ) * (q / 60) = q := by ring
  nlinarith

theorem serializeLine_eq {q : ℚ} (hq : 0 ≤ q) (text : Str) :
    serializeLine { time := .num q, text := text }
      = natToChars (⌊q / 60⌋).toNat ++ ':' ::
          (padStart 5 '0' (toFixed2Mag (q - 60 * (⌊q / 60⌋ : ℚ))) ++ '|' :: text) := by
  have h1 : serializeLine { time := .num q, text := text }
      = intToChars ⌊q / 60⌋ ++ ':' ::
          (padStart 5 '0' (toFixed2 (.num (q - 60 * (qTrunc (q / 60) : ℚ)))) ++ '|' :: text) := by
    simp [serializeLine, jsDiv60, jsIntStr, jsMod60, List.cons_append]
  rw [h1, qTrunc_of_nonneg (by positivity : (0:ℚ) ≤ q / 60)]
  rw [intToChars, if_neg (not_lt.mpr (floor_div60_nonneg hq))]
  simp only [toFixed2]
  rw [if_neg (not_lt.mpr (rem60_nonneg hq))]

theorem toFixed2Mag_eq (r : ℚ) :
    toFixed2Mag r
      = natToChars ((⌊r * 100 + 1 / 2⌋).toNat / 100) ++ '.' ::
          [digitChar ((⌊r * 100 + 1 / 2⌋).toNat % 100 / 10),
           digitChar ((⌊r * 100 + 1 / 2⌋).toNat % 10)] := rfl

theorem manualEntry_timePart (i : ℕ) (mN pad ipN d1 d2 : ℕ)
    (hd1 : d1 < 10) (hd2 : d2 < 10) {text : Str}
    (hp : '|' ∉ text) (ht : trim text = text) :
    manualEntry i
        ((natToChars mN ++ ':'
            :: (List.replicate pad '0' ++ (natToChars ipN ++ '.' :: [digitChar d1, digitChar d2])))
          ++ '|' :: text)
      = { time := .num ((mN : ℚ) * 60 + ((ipN : ℚ) + (10 * (d1 : ℚ) + (d2 : ℚ)) / 100)),
          text := text } := by
  set B : Str := List.replicate pad '0'
      ++ (natToChars ipN ++ '.' :: [digitChar d1, digitChar d2]) with hB
  set timePart : Str := natToChars mN ++ ':' :: B with hTP
  have hBchars : ∀ x ∈ B, isDigitC x = true ∨ x = '.' := by
    intro x hx
    rw [hB] at hx
    rcases List.mem_append.mp hx with hx | hx
    · left
      rw [List.eq_of_mem_replicate hx]
      decide
    · rcases List.mem_append.mp hx with hx | hx
      · exact Or.inl (natToChars_digits ipN x hx)
      · rcases List.mem_cons.mp hx with rfl | hx
        · exact Or.inr rfl
        · rcases List.mem_cons.mp hx with rfl | hx
          · exact Or.inl (isDigitC_digitChar_any d1)
          · rcases List.mem_cons.mp hx with rfl | hx
            · exact Or.inl (isDigitC_digitChar_any d2)
            · simp at hx
  have hTPchars : ∀ x ∈ timePart, isDigitC x = true ∨ x = ':' ∨ x = '.' := by
    intro x hx
    rw [hTP] at hx
    rcases List.mem_append.mp hx with hx | hx
    · exact Or.inl (natToChars_digits mN x hx)
    · rcases List.mem_cons.mp hx with rfl | hx
      · exact Or.inr (Or.inl rfl)
      · rcases hBchars x hx with h | h
        · exact Or.inl h
        · exact Or.inr (Or.inr h)
  have hTPnoPipe : '|' ∉ timePart := by
    intro hx
    rcases hTPchars '|' hx with h | h | h <;> exact absurd h (by decide)
  have hTPnoWS : ∀ x ∈ timePart, isWS x = false := by
    intro x hx
    rcases hTPchars x hx with h | h | h
    · exact isWS_eq_false_of_isDigitC h
    · rw [h]; decide
    · rw [h]; decide
  have hsplit : splitOnChar '|' (timePart ++ '|' :: text) = [timePart, text] := by
    rw [splitOnChar_append_cons '|' text hTPnoPipe, splitOnChar_of_not_mem hp]
  have htrimTP : trim timePart = timePart := trim_eq_self hTPnoWS
  have hcolon : ':' ∈ timePart := by rw [hTP]; simp
  have hnoColonA : ':' ∉ natToChars mN := by
    intro hx
    exact absurd (natToChars_digits mN ':' hx) (by decide)
  have hnoColonB : ':' ∉ B := by
    intro hx
    rcases hBchars ':' hx with h | h <;> exact absurd h (by decide)
  have hsplitColon : splitOnChar ':' timePart = [natToChars mN, B] := by
    rw [hTP, splitOnChar_append_cons ':' B hnoColonA, splitOnChar_of_not_mem hnoColonB]
  have hfloat : jsParseFloat B = .num ((ipN : ℚ) + (10 * (d1 : ℚ) + (d2 : ℚ)) / 100) := by
    have hrearrange : B = (List.replicate pad '0' ++ natToChars ipN)
        ++ '.' :: [digitChar d1, digitChar d2] := by
      rw [hB, List.append_assoc]
    rw [hrearrange]
    rw [jsParseFloat_digits (by simp [natToChars_ne_nil ipN])
      (by
        intro c hc
        rcases List.mem_append.mp hc with hc | hc
        · rw [List.eq_of_mem_replicate hc]; decide
        · exact natToChars_digits ipN c hc)
      (by
        intro c hc
        rcases List.mem_cons.mp hc with rfl | hc
        · exact isDigitC_digitChar_any d1
        · rcases List.mem_cons.mp hc with rfl | hc
          · exact isDigitC_digitChar_any d2
          · simp at hc)]
    have hip : digitsVal (List.replicate pad '0' ++ natToChars ipN) = ipN := by
      rw [digitsVal_append, digitsVal_replicate_zero, digitsVal_natToChars]
      ring
    have hfp : digitsVal [digitChar d1, digitChar d2] = 10 * d1 + d2 := by
      show 10 * (10 * 0 + digitVal (digitChar d1)) + digitVal (digitChar d2) = 10 * d1 + d2
      rw [digitVal_digitChar hd1, digitVal_digitChar hd2]
      omega
    rw [hip, hfp]
    norm_num
  rw [manualEntry.eq_def, hsplit]
  simp only [htrimTP, ht]
  rw [if_pos hcolon, hsplitColon]
  simp only [jsParseInt_natToChars, hfloat, JsNum.mul, JsNum.add]

theorem manualEntry_serializeLine (i : ℕ) {q : ℚ} (hq : 0 ≤ q) {text : Str}
    (hp : '|' ∉ text) (ht : trim text = text) :
    manualEntry i (serializeLine { time := .num q, text := text })
      = { time := .num (roundToHundredths q), text := text } := by
  have hshape : ∀ (A B t : Str), A ++ ':' :: (B ++ '|' :: t) = (A ++ ':' :: B) ++ '|' :: t := by
    intro A B t
    simp [List.cons_append]
  rw [serializeLine_eq hq text, toFixed2Mag_eq, padStart, hshape]
  rw [manualEntry_timePart i _ _ _ _ _ (by omega) (by omega) hp ht]
  have hrem : (0 : ℚ) ≤ q - 60 * (⌊q / 60⌋ : ℚ) := rem60_nonneg hq
  set rem : ℚ := q - 60 * (⌊q / 60⌋ : ℚ) with hremdef
  set n : ℕ := (⌊rem * 100 + 1 / 2⌋).toNat with hndef
  clear_value rem n
  have hm : ((⌊q / 60⌋.toNat : ℕ) : ℚ) = (⌊q / 60⌋ : ℚ) := by
    exact_mod_cast congrArg (fun z : ℤ => (z : ℚ))
      (Int.toNat_of_nonneg (floor_div60_nonneg hq))
  have hrem100 : (0 : ℚ) ≤ rem * 100 := mul_nonneg hrem (by norm_num)
  have hfl : (0 : ℤ) ≤ ⌊rem * 100 + 1 / 2⌋ := Int.floor_nonneg.mpr (by linarith)
  have hnq : ((n : ℕ) : ℚ) = ((⌊rem * 100 + 1 / 2⌋ : ℤ) : ℚ) := by
    rw [hndef]
    exact_mod_cast congrArg (fun z : ℤ => (z : ℚ)) (Int.toNat_of_nonneg hfl)
  have hdigits : (10 * (n % 100 / 10) + n % 10 : ℕ) = n % 100 := by omega
  have hkey : ⌊q * 100 + 1 / 2⌋ = ⌊rem * 100 + 1 / 2⌋ + 6000 * ⌊q / 60⌋ := by
    have he : q * 100 + 1 / 2 = (rem * 100 + 1 / 2) + ((6000 * ⌊q / 60⌋ : ℤ) : ℚ) := by
      rw [hremdef]
      push_cast
      ring
    rw [he, Int.floor_add_int]
  have harith : ((⌊q / 60⌋.toNat : ℕ) : ℚ) * 60
      + (((n / 100 : ℕ) : ℚ) + (10 * ((n % 100 / 10 : ℕ) : ℚ) + ((n % 10 : ℕ) : ℚ)) / 100)
      = roundToHundredths q := by
    have hsum : (10 * ((n % 100 / 10 : ℕ) : ℚ) + ((n % 10 : ℕ) : ℚ)) = ((n % 100 : ℕ) : ℚ) := by
      exact_mod_cast congrArg (fun k : ℕ => (k : ℚ)) hdigits
    have hnmod : (100 * (n / 100) + n % 100 : ℕ) = n := Nat.div_add_mod n 100
    have hnmodq : 100 * ((n / 100 : ℕ) : ℚ) + ((n % 100 : ℕ) : ℚ) = (n : ℚ) := by
      exact_mod_cast congrArg (fun k : ℕ => (k : ℚ)) hnmod
    rw [hsum, hm, roundToHundredths, hkey]
    push_cast
    rw [← hnq]
    linarith
  rw [← harith]

theorem serializeLine_mem_chars {q : ℚ} (hq : 0 ≤ q) (text : Str) :
    ∀ x ∈ serializeLine { time := .num q, text := text },
      isDigitC x = true ∨ x = ':' ∨ x = '.' ∨ x = '|' ∨ x ∈ text := by
  rw [serializeLine_eq hq text, toFixed2Mag_eq, padStart]
  intro x hx
  rcases List.mem_append.mp hx with hx | hx
  · exact Or.inl (natToChars_digits _ x hx)
  · rcases List.mem_cons.mp hx with rfl | hx
    · exact Or.inr (Or.inl rfl)
    · rcases List.mem_append.mp hx with hx | hx
      · rcases List.mem_append.mp hx with hx | hx
        · left
          rw [List.eq_of_mem_replicate hx]
          decide
        · rcases List.mem_append.mp hx with hx | hx
          · exact Or.inl (natToChars_digits _ x hx)
          · rcases List.mem_cons.mp hx with rfl | hx
            · exact Or.inr (Or.inr (Or.inl rfl))
            · rcases List.mem_cons.mp hx with rfl | hx
              · exact Or.inl (isDigitC_digitChar_any _)
              · rcases List.mem_cons.mp hx with rfl | hx
                · exact Or.inl (isDigitC_digitChar_any _)
                · simp at hx
      · rcases List.mem_cons.mp hx with rfl | hx
        · exact Or.inr (Or.inr (Or.inr (Or.inl rfl)))
        · exact Or.inr (Or.inr (Or.inr (Or.inr hx)))

theorem colon_mem_serializeLine {q : ℚ} (hq : 0 ≤ q) (text : Str) :
    ':' ∈ serializeLine { time := .num q, text := text } := by
  rw [serializeLine_eq hq text]
  simp

theorem eta_of_time_num {l : LyricLine} {q : ℚ} (h : l.time = .num q) :
    l = { time := .num q, text := l.text } := by
  cases l
  simp_all

theorem retainedLines_serializeLyrics {ls : List LyricLine}
    (hsafe : ∀ l ∈ ls, roundTripSafe l) :
    retainedLines (serializeLyrics ls) = ls.map serializeLine := by
  cases hls : ls with
  | nil => rfl
  | cons l0 rest =>
    rw [← hls]
    have hne : ls.map serializeLine ≠ [] := by rw [hls]; simp
    have hbyline : ∀ x ∈ ls.map serializeLine,
        '\n' ∉ x ∧ (∃ c ∈ x, isWS c = false) := by
      intro x hx
      obtain ⟨l, hl, rfl⟩ := List.mem_map.mp hx
      obtain ⟨⟨q, htq, hq0⟩, hnl, hpp, htt⟩ := hsafe l hl
      rw [eta_of_time_num htq]
      constructor
      · intro hmem
        rcases serializeLine_mem_chars hq0 l.text '\n' hmem with h | h | h | h | h
        · exact absurd h (by decide)
        · exact absurd h (by decide)
        · exact absurd h (by decide)
        · exact absurd h (by decide)
        · exact hnl h
      · exact ⟨':', colon_mem_serializeLine hq0 l.text, by decide⟩
    rw [retainedLines, serializeLyrics,
        splitOnChar_intercalate '\n' (fun x hx => (hbyline x hx).1) hne]
    rw [List.filter_eq_self.mpr]
    intro x hx
    obtain ⟨c, hc, hcws⟩ := (hbyline x hx).2
    have hne2 : trim x ≠ [] := trim_ne_nil hc hcws
    simp [List.isEmpty_iff, hne2]

/-! Characterization of the active-line search. -/

theorem findActiveAux_cons (t : JsNum) (l : LyricLine) (rest : List LyricLine) :
    findActiveAux t (l :: rest)
      = if (JsNum.jge t l.time && nextLineOk t rest) = true
        then some 0 else (findActiveAux t rest).map (· + 1) := by
  cases rest <;> rfl

theorem activeAt_cons_zero {l : LyricLine} {rest : List LyricLine} {t : JsNum} :
    activeAt (l :: rest) t 0 ↔
      (JsNum.jge t l.time && nextLineOk t rest) = true := by
  cases rest with
  | nil => simp [activeAt, nextLineOk]
  | cons nl rest2 => simp [activeAt, nextLineOk]

theorem activeAt_cons_succ {l : LyricLine} {rest : List LyricLine} {t : JsNum} {j : ℕ} :
    activeAt (l :: rest) t (j + 1) ↔ activeAt rest t j := by
  unfold activeAt
  rw [List.getElem?_cons_succ, List.getElem?_cons_succ]

theorem findActiveAux_eq_some_iff (t : JsNum) (ls : List LyricLine) (i : ℕ) :
    findActiveAux t ls = some i ↔ activeAt ls t i ∧ ∀ j < i, ¬ activeAt ls t j := by
  induction ls generalizing i with
  | nil =>
    constructor
    · intro h; exact absurd h (by simp [findActiveAux])
    · intro h
      obtain ⟨ha, -⟩ := h
      obtain ⟨hex, -⟩ := ha
      obtain ⟨l, hl, -⟩ := hex
      simp at hl
  | cons l rest ih =>
    rw [findActiveAux_cons]
    by_cases hc : (JsNum.jge t l.time && nextLineOk t rest) = true
    · rw [if_pos hc]
      constructor
      · intro h
        rw [Option.some.injEq] at h
        subst h
        exact ⟨activeAt_cons_zero.mpr hc, by omega⟩
      · rintro ⟨-, hmin⟩
        cases i with
        | zero => rfl
        | succ i => exact absurd (activeAt_cons_zero.mpr hc) (hmin 0 (by omega))
    · rw [if_neg hc]
      cases i with
      | zero =>
        constructor
        · intro h
          rw [Option.map_eq_some'] at h
          obtain ⟨a, -, ha⟩ := h
          exact absurd ha (by omega)
        · rintro ⟨ha, -⟩
          exact absurd (activeAt_cons_zero.mp ha) hc
      | succ i =>
        have hmap : (Option.map (· + 1) (findActiveAux t rest) = some (i + 1))
            ↔ findActiveAux t rest = some i := by
          rw [Option.map_eq_some']
          constructor
          · rintro ⟨a, ha, he⟩
            have hai : a = i := by omega
            subst hai; exact ha
          · intro h; exact ⟨i, h, rfl⟩
        rw [hmap, ih i]
        constructor
        · rintro ⟨ha, hmin⟩
          refine ⟨activeAt_cons_succ.mpr ha, ?_⟩
          intro j hj
          cases j with
          | zero => exact fun hz => hc (activeAt_cons_zero.mp hz)
          | succ j =>
            intro hs
            exact hmin j (by omega) (activeAt_cons_succ.mp hs)
        · rintro ⟨ha, hmin⟩
          refine ⟨activeAt_cons_succ.mp ha, ?_⟩
          intro j hj hs
          exact hmin (j + 1) (by omega) (activeAt_cons_succ.mpr hs)

theorem findActiveAux_none_of_sorted {ls : List LyricLine} {l0 : LyricLine} {q0 p : ℚ}
    (hhead : ls.head? = some l0) (ht0 : l0.time = .num q0)
    (hnum : ∀ l ∈ ls, ∃ x : ℚ, l.time = .num x)
    (hsorted : List.Sorted timeLE ls)
    (hp : p < q0) : findActiveAux (.num p) ls = none := by
  cases ls with
  | nil => rfl
  | cons hd rest =>
    rw [List.head?_cons, Option.some.injEq] at hhead
    subst hhead
    by_contra hne
    obtain ⟨i, hi⟩ := Option.ne_none_iff_exists'.mp hne
    obtain ⟨l, hl, hge⟩ := ((findActiveAux_eq_some_iff _ _ _).mp hi).1.1
    have hmem : l ∈ hd :: rest := List.getElem?_mem hl
    obtain ⟨x, hx⟩ := hnum l hmem
    rw [hx] at hge
    have hpx : x ≤ p := by simpa [JsNum.jge] using hge
    have hq0x : q0 ≤ x := by
      cases i with
      | zero =>
        rw [List.getElem?_cons_zero, Option.some.injEq] at hl
        subst hl
        rw [ht0, JsNum.num.injEq] at hx
        exact le_of_eq hx
      | succ i =>
        rw [List.getElem?_cons_succ] at hl
        have hrel : timeLE hd l :=
          (List.sorted_cons.mp hsorted).1 l (List.getElem?_mem hl)
        unfold timeLE timeKey at hrel
        rw [ht0, hx] at hrel
        exact hrel
    linarith

theorem manualEntry_of_not_two {i : ℕ} {line : Str}
    (h : (splitOnChar '|' line).length ≠ 2) :
    manualEntry i line = { time := .num ((i : ℚ) * 3), text := trim line } := by
  rw [manualEntry.eq_def]
  cases hsp : splitOnChar '|' line with
  | nil => rfl
  | cons a rest =>
    cases rest with
    | nil => rfl
    | cons b rest2 =>
      cases rest2 with
      | nil =>
        rw [hsp] at h
        exact absurd rfl h
      | cons c rest3 => rfl

/-! Claim theorems. -/

/-- C1 (amended): the resolver returns the first index `i` with
`currentTime >= lyrics[i].time` and (`i` last or `currentTime <
lyrics[i+1].time`); an absent sequence resolves to none; when all times are
numeric and the sequence is sorted non-decreasingly by time, a `currentTime`
strictly before the first entry's time resolves to none; and on times
[0, 3, 6] the times 4, -1, 6, 1000 resolve to index 1, none, 2, 2. -/
theorem C1_active_line_resolver :
    (∀ t, resolveActive none t = none) ∧
    (∀ (ls : List LyricLine) (t : JsNum) (i : ℕ),
      resolveActive (some ls) t = some i ↔
        activeAt ls t i ∧ ∀ j < i, ¬ activeAt ls t j) ∧
    (∀ (ls : List LyricLine) (l0 : LyricLine) (q0 p : ℚ),
      ls.head? = some l0 → l0.time = .num q0 →
      (∀ l ∈ ls, ∃ x : ℚ, l.time = .num x) → List.Sorted timeLE ls →
      p < q0 → resolveActive (some ls) (.num p) = none) ∧
    resolveActive (some exLyrics036) (.num 4) = some 1 ∧
    resolveActive (some exLyrics036) (.num (-1)) = none ∧
    resolveActive (some exLyrics036) (.num 6) = some 2 ∧
    resolveActive (some exLyrics036) (.num 1000) = some 2 := by
  refine ⟨fun _ => rfl, ?_, ?_, by decide, by decide, by decide, by decide⟩
  · intro ls t i
    exact findActiveAux_eq_some_iff t ls i
  · intro ls l0 q0 p hh ht hn hs hp
    exact findActiveAux_none_of_sorted hh ht hn hs hp

/-- Witness for C1: the sorted-sequence clause applied to the example
sequence with times [0, 3, 6] at currentTime -1. -/
theorem C1_active_line_resolver_witness :
    resolveActive (some exLyrics036) (.num (-1)) = none :=
  C1_active_line_resolver.2.2.1 exLyrics036 { time := .num 0, text := ['a'] } 0 (-1)
    (by decide) rfl
    (by
      intro l hl
      rw [exLyrics036] at hl
      rcases List.mem_cons.mp hl with rfl | hl
      · exact ⟨0, rfl⟩
      · rcases List.mem_cons.mp hl with rfl | hl
        · exact ⟨3, rfl⟩
        · rcases List.mem_cons.mp hl with rfl | hl
          · exact ⟨6, rfl⟩
          · simp at hl)
    (by decide) (by norm_num)

/-- C1 counterexample: on the unsorted sequence with times [5, 1] and
currentTime 1 — strictly before the first entry's time 5 — the resolver
returns index 1, not none, so the claim as stated fails. -/
theorem C1_counterexample :
    resolveActive (some exUnsorted) (.num 1) = some 1 ∧
    JsNum.jlt (.num 1) (.num 5) = true ∧
    exUnsorted.head? = some { time := .num 5, text := ['x'] } := by
  refine ⟨by decide, by decide, by decide⟩

/-- C2 (amended): a line that carries the marker pattern anywhere (the
regex is unanchored; the leftmost occurrence wins, and a leading marker is
the special case of an empty prefix) yields one entry with
`time = minutes*60 + seconds + hundredths/100` and the text after the
marker trimmed; if no line carries the pattern the output is empty; and a
matching line always contributes its entry — no input is an error. -/
theorem C2_tagged_format :
    (∀ m s c : ℕ, m < 100 → s < 100 → c < 100 → ∀ text : Str, '\n' ∉ text →
      parseLRCFile (markerChars m s c ++ text)
        = [{ time := .num ((m : ℚ) * 60 + (s : ℚ) + (c : ℚ) / 100),
             text := trim text }]) ∧
    (∀ content : Str, (∀ line ∈ splitOnChar '\n' content, findLRC line = none) →
      parseLRCFile content = []) ∧
    (∀ (content line : Str) (e : LyricLine), line ∈ splitOnChar '\n' content →
      findLRC line = some e → e ∈ parseLRCFile content) := by
  refine ⟨?_, ?_, ?_⟩
  · intro m s c hm hs hc text hnl
    have hmem : '\n' ∉ markerChars m s c ++ text := by
      intro hx
      rcases List.mem_append.mp hx with hx | hx
      · exact newline_not_mem_markerChars m s c hx
      · exact hnl hx
    rw [parseLRCFile, splitOnChar_of_not_mem hmem]
    exact parseLRCLines_singleton_marker hm hs hc text
  · intro content h
    exact parseLRCLines_all_none h
  · intro content line e hmem hfind
    exact mem_parseLRCLines.mpr ⟨line, hmem, hfind⟩

/-- Witness for C2: the marker [01:02.03] followed by "hi" parses to the
single entry with time 62.03 and text "hi". -/
theorem C2_tagged_format_witness :
    parseLRCFile (markerChars 1 2 3 ++ ['h', 'i'])
      = [{ time := .num ((1 : ℚ) * 60 + (2 : ℚ) + (3 : ℚ) / 100),
           text := trim ['h', 'i'] }] :=
  C2_tagged_format.1 1 2 3 (by norm_num) (by norm_num) (by norm_num)
    ['h', 'i'] (by decide)

/-- C2 counterexample: the line " [00:01.02]hi" does not match with a
leading marker (a space precedes the tag), yet the parser emits an entry
for it, so the claim as stated fails. -/
theorem C2_counterexample :
    matchLRCAt exIndentedLine = none ∧
    parseLRCFile exIndentedLine
      = [{ time := .num (51 / 50), text := ['h', 'i'] }] := by
  refine ⟨by decide, by decide⟩

/-- C3: the freeform parser keeps exactly the non-blank lines; a line with
exactly two pipe-separated parts gets the trimmed second part as text and a
time computed as `parseInt(minutes)*60 + parseFloat(seconds)` when the
trimmed first part contains a colon and `parseFloat` of it otherwise; any
other line becomes a whole-line entry at `index * 3` seconds; order is
retained-line order and is not re-sorted, as the out-of-order example
shows. -/
theorem C3_freeform_format :
    (∀ buffer : Str,
      (handleManualEdit buffer).length = (retainedLines buffer).length) ∧
    (∀ (buffer : Str) (i : ℕ) (line : Str),
      (retainedLines buffer)[i]? = some line →
      (handleManualEdit buffer)[i]? = some (
        match splitOnChar '|' line with
        | [rawTime, rawText] =>
          { time :=
              if ':' ∈ trim rawTime then
                match splitOnChar ':' (trim rawTime) with
                | minutes :: seconds :: _ =>
                  (jsParseInt minutes).mul (.num 60) |>.add (jsParseFloat seconds)
                | _ => .nan
              else jsParseFloat (trim rawTime),
            text := trim rawText }
        | _ => { time := .num ((i : ℚ) * 3), text := trim line })) ∧
    handleManualEdit exOrderBuffer
      = [{ time := .num 5, text := ['b'] }, { time := .num 1, text := ['a'] }] := by
  refine ⟨handleManualEdit_length, ?_, by decide⟩
  intro buffer i line h
  rw [handleManualEdit_getElem?, h, Option.map_some']
  congr 1

/-- Witness for C3: the per-line clause applied to the buffer "5|b\n1|a" at
retained position 0. -/
theorem C3_freeform_format_witness :
    (handleManualEdit exOrderBuffer)[0]?
      = some (
        match splitOnChar '|' ['5', '|', 'b'] with
        | [rawTime, rawText] =>
          { time :=
              if ':' ∈ trim rawTime then
                match splitOnChar ':' (trim rawTime) with
                | minutes :: seconds :: _ =>
                  (jsParseInt minutes).mul (.num 60) |>.add (jsParseFloat seconds)
                | _ => .nan
              else jsParseFloat (trim rawTime),
            text := trim rawText }
        | _ => { time := .num (((0 : ℕ) : ℚ) * 3), text := trim ['5', '|', 'b'] }) :=
  C3_freeform_format.2.1 exOrderBuffer 0 ['5', '|', 'b'] (by decide)

/-- C4 (amended): for every sequence whose entries have non-negative
numeric times and texts without pipe or newline characters and without
surrounding whitespace, serializing to the edit buffer and reparsing with
the freeform parser yields the same length, the same texts, and the times
rounded to hundredths of a second. -/
theorem C4_roundtrip :
    ∀ ls : List LyricLine, (∀ l ∈ ls, roundTripSafe l) →
      (handleManualEdit (serializeLyrics ls)).length = ls.length ∧
      (∀ (i : ℕ) (l : LyricLine) (q : ℚ), ls[i]? = some l → l.time = .num q →
        (handleManualEdit (serializeLyrics ls))[i]?
          = some { time := .num (roundToHundredths q), text := l.text }) := by
  intro ls hsafe
  have hret := retainedLines_serializeLyrics hsafe
  constructor
  · rw [handleManualEdit_length, hret, List.length_map]
  · intro i l q hl htq
    rw [handleManualEdit_getElem?, hret, List.getElem?_map, hl, Option.map_some',
        Option.map_some']
    obtain ⟨⟨q', htq', hq0⟩, hnl, hpp, htt⟩ := hsafe l (List.getElem?_mem hl)
    have hqq : q' = q := (JsNum.num.injEq q' q).mp (htq'.symm.trans htq)
    subst hqq
    have hser : serializeLine l = serializeLine { time := .num q', text := l.text } :=
      congrArg serializeLine (eta_of_time_num htq)
    rw [hser, manualEntry_serializeLine i hq0 hpp htt]

/-- Witness for C4: the singleton sequence with time 5 and text "x"
round-trips through the edit buffer. -/
theorem C4_roundtrip_witness :
    (handleManualEdit (serializeLyrics [{ time := .num 5, text := ['x'] }]))[0]?
      = some { time := .num (roundToHundredths 5), text := ['x'] } :=
  (C4_roundtrip [{ time := .num 5, text := ['x'] }]
    (by
      intro l hl
      rw [List.mem_singleton] at hl
      subst hl
      exact ⟨⟨5, rfl, by norm_num⟩, by decide, by decide, by decide⟩)).2
    0 { time := .num 5, text := ['x'] } 5 rfl rfl

/-- C4 counterexample: an entry whose text contains a pipe ("a|b") does not
round-trip — the reparsed entry carries the whole serialized line as its
text — so the claim as stated over every lyric sequence fails. -/
theorem C4_counterexample :
    handleManualEdit (serializeLyrics [exPipeEntry])
      = [{ time := .num 0,
           text := ['0', ':', '0', '0', '.', '0', '0', '|', 'a', '|', 'b'] }] ∧
    ['0', ':', '0', '0', '.', '0', '0', '|', 'a', '|', 'b'] ≠ exPipeEntry.text := by
  refine ⟨by decide, by decide⟩

/-- C5: the tagged parser's output is sorted non-decreasingly by the time
comparator and all its times are numeric; and inputs whose line lists are
permutations of each other produce outputs that are permutations of each
other (hence the same multiset of entries). -/
theorem C5_sorted_output :
    (∀ content : Str, List.Pairwise timeLE (parseLRCFile content) ∧
      ∀ l ∈ parseLRCFile content, ∃ q : ℚ, l.time = .num q) ∧
    (∀ c1 c2 : Str, (splitOnChar '\n' c1).Perm (splitOnChar '\n' c2) →
      (parseLRCFile c1).Perm (parseLRCFile c2)) := by
  constructor
  · intro content
    refine ⟨sortByTime_sorted _, ?_⟩
    intro l hl
    obtain ⟨line, -, hfind⟩ := mem_parseLRCLines.mp hl
    obtain ⟨q, hq, -⟩ := findLRC_time_nonneg hfind
    exact ⟨q, hq⟩
  · intro c1 c2 hperm
    exact ((sortByTime_perm _).trans (hperm.filterMap findLRC)).trans
      (sortByTime_perm _).symm

/-- Witness for C5: the two-line contents with the tags in either order
parse to permutations of each other. -/
theorem C5_sorted_output_witness :
    (parseLRCFile exContentA).Perm (parseLRCFile exContentB) :=
  C5_sorted_output.2 exContentA exContentB (by decide)

/-- C6 (amended): an upload without a file, or with a name not ending in
".lrc", shows the error toast and never invokes the update hook; an upload
of any ".lrc"-named file always invokes the hook with the parsed — possibly
empty — sequence and shows the success toast. -/
theorem C6_upload_filter :
    (∀ content : Str, handleLRCUpload none content = (none, .toastError)) ∧
    (∀ name content : Str, lrcSuffix.isSuffixOf name = false →
      handleLRCUpload (some name) content = (none, .toastError)) ∧
    (∀ name content : Str, lrcSuffix.isSuffixOf name = true →
      handleLRCUpload (some name) content = (some (parseLRCFile content), .success)) := by
  refine ⟨fun _ => rfl, ?_, ?_⟩
  · intro name content h
    simp [handleLRCUpload, h]
  · intro name content h
    simp [handleLRCUpload, h]

/-- Witness for C6: uploading "a.txt" is rejected with the error toast and
no update. -/
theorem C6_upload_filter_witness :
    handleLRCUpload (some exTxtName) exGarbage = (none, .toastError) :=
  C6_upload_filter.2.1 exTxtName exGarbage (by decide)

/-- C6 counterexample: uploading "a.lrc" whose content has no matching line
invokes the update hook with the empty sequence and shows the success
toast, while the claim requires a notice and unchanged lyrics. -/
theorem C6_counterexample :
    handleLRCUpload (some exLrcName) exGarbage = (some [], .success) ∧
    parseLRCFile exGarbage = [] := by
  refine ⟨by decide, by decide⟩

/-- C7: in the tagged parser a line with no regex match contributes nothing
and removing it leaves the rest of the parse unchanged; in the freeform
parser a whitespace-only line is the only dropped kind and removing one
leaves the rest unchanged; a line with a match always contributes its
entry; and the freeform parser emits one entry per retained line — no parse
ever aborts. -/
theorem C7_line_errors_isolated :
    (∀ (pre post : List Str) (bad : Str), findLRC bad = none →
      parseLRCLines (pre ++ bad :: post) = parseLRCLines (pre ++ post)) ∧
    (∀ (pre post : List Str) (bad : Str), trim bad = [] →
      handleManualEditLines (pre ++ bad :: post) = handleManualEditLines (pre ++ post)) ∧
    (∀ (lines : List Str) (line : Str) (e : LyricLine),
      line ∈ lines → findLRC line = some e → e ∈ parseLRCLines lines) ∧
    (∀ rawLines : List Str,
      (handleManualEditLines rawLines).length
        = (rawLines.filter (fun l => !(trim l).isEmpty)).length) := by
  refine ⟨?_, ?_, ?_, ?_⟩
  · intro pre post bad h
    exact parseLRCLines_drop_unmatched pre post h
  · intro pre post bad h
    exact handleManualEditLines_drop_blank pre post h
  · intro lines line e hm hf
    exact mem_parseLRCLines.mpr ⟨line, hm, hf⟩
  · intro rawLines
    exact manualLoop_length 0 _

/-- Witness for C7: dropping the unmatched line "garbage" leaves the tagged
parse unchanged. -/
theorem C7_line_errors_isolated_witness :
    parseLRCLines ([] ++ exGarbage :: []) = parseLRCLines ([] ++ []) :=
  C7_line_errors_isolated.1 [] [] exGarbage (by decide)

/-- C8: updating lyrics at a selected in-range index replaces exactly that
song's lyrics field with the whole new sequence; every other song record is
unchanged and the updated song keeps its id, title, artist and src. -/
theorem C8_lyrics_update_frame :
    ∀ (songs : List Song) (i : ℕ) (L : List LyricLine), i < songs.length →
      (handleLyricsUpdate songs i L).length = songs.length ∧
      (∀ j : ℕ, j ≠ i → (handleLyricsUpdate songs i L)[j]? = songs[j]?) ∧
      (∃ s s' : Song, songs[i]? = some s ∧
        (handleLyricsUpdate songs i L)[i]? = some s' ∧
        s'.lyrics = some L ∧ s'.id = s.id ∧ s'.title = s.title ∧
        s'.artist = s.artist ∧ s'.src = s.src) := by
  intro songs i L hi
  refine ⟨updateSongsFrom_length i L 0 songs, ?_, ?_⟩
  · intro j hj
    rw [handleLyricsUpdate, updateSongsFrom_getElem?]
    cases hsj : songs[j]? with
    | none => rfl
    | some s =>
      rw [Option.map_some', if_neg (by omega)]
  · refine ⟨songs[i], { songs[i] with lyrics := some L },
      List.getElem?_eq_getElem hi, ?_, rfl, rfl, rfl, rfl, rfl⟩
    rw [handleLyricsUpdate, updateSongsFrom_getElem?, List.getElem?_eq_getElem hi,
        Option.map_some', if_pos (by omega)]

/-- Witness for C8: updating the first of the two example songs keeps the
list length. -/
theorem C8_lyrics_update_frame_witness :
    (handleLyricsUpdate exSongs 0 []).length = exSongs.length :=
  (C8_lyrics_update_frame exSongs 0 [] (by decide)).1

/-- C9 (amended): every entry of the tagged parser has a non-negative
numeric time, and every freeform entry coming from a line without exactly
two pipe-separated parts has the non-negative synthetic time `index * 3`;
a freeform line with an explicit time expression can, however, escape this
bound (see the counterexample). -/
theorem C9_parser_times :
    (∀ (content : Str) (l : LyricLine), l ∈ parseLRCFile content →
      ∃ q : ℚ, l.time = .num q ∧ 0 ≤ q) ∧
    (∀ (buffer : Str) (i : ℕ) (line : Str),
      (retainedLines buffer)[i]? = some line →
      (splitOnChar '|' line).length ≠ 2 →
      (handleManualEdit buffer)[i]?
        = some { time := .num ((i : ℚ) * 3), text := trim line } ∧
      (0 : ℚ) ≤ (i : ℚ) * 3) := by
  constructor
  · intro content l hl
    obtain ⟨line, -, hfind⟩ := mem_parseLRCLines.mp hl
    exact findLRC_time_nonneg hfind
  · intro buffer i line hline hlen
    refine ⟨?_, by positivity⟩
    rw [handleManualEdit_getElem?, hline, Option.map_some', manualEntry_of_not_two hlen]

/-- Witness for C9: the single bare line "hey" gets the synthetic
non-negative time 0 * 3. -/
theorem C9_parser_times_witness :
    (handleManualEdit exBareBuffer)[0]?
      = some { time := .num (((0 : ℕ) : ℚ) * 3), text := trim ['h', 'e', 'y'] } ∧
    (0 : ℚ) ≤ ((0 : ℕ) : ℚ) * 3 :=
  C9_parser_times.2 exBareBuffer 0 ['h', 'e', 'y'] (by decide) (by decide)

/-- C9 counterexample: the freeform buffer "-5|x" produces an entry with
the negative time -5, so not every parser output has time >= 0. -/
theorem C9_counterexample :
    handleManualEdit exNegBuffer = [{ time := .num (-5), text := ['x'] }] ∧
    ¬ (0 : ℚ) ≤ (-5 : ℚ) := by
  refine ⟨by decide, by norm_num⟩

/-- C10: the freeform parser emits exactly one entry per retained line —
the output length equals the retained-line count, the entry at position i
is the loop body applied to the retained line at position i, and even a
line with a non-numeric time expression ("abc|x", giving a NaN time) is
kept. -/
theorem C10_entry_per_retained_line :
    (∀ buffer : Str, (handleManualEdit buffer).length = (retainedLines buffer).length) ∧
    (∀ (buffer : Str) (i : ℕ) (line : Str),
      (retainedLines buffer)[i]? = some line →
      (handleManualEdit buffer)[i]? = some (manualEntry i line)) ∧
    handleManualEdit exNanBuffer = [{ time := .nan, text := ['x'] }] := by
  refine ⟨handleManualEdit_length, ?_, by decide⟩
  intro buffer i line h
  rw [handleManualEdit_getElem?, h, Option.map_some']

/-- Witness for C10: the retained line "abc|x" at position 0 yields exactly
its loop-body entry. -/
theorem C10_entry_per_retained_line_witness :
    (handleManualEdit exNanBuffer)[0]?
      = some (manualEntry 0 ['a', 'b', 'c', '|', 'x']) :=
  C10_entry_per_retained_line.2.1 exNanBuffer 0 ['a', 'b', 'c', '|', 'x'] (by decide)

end ChordScribe
